import Mathlib

/-!
Verification of the AVFS virtual filesystem library: a shallow embedding of
the error/OS-personality table, the path iterator, the volume-name scanner,
the umask register, the dummy identity manager and the base-path overlay
backend, together with theorems settling the specification claims.

Go strings are embedded as lists of characters; machine integers are
embedded as `Nat` (the operations involved never overflow 32 bits);
Go `error` results become `Option` values.
-/

namespace AVFS

/-- Go strings, embedded as lists of characters. -/
abbrev Str := List Char

/-- Operating system personality (`avfs.OSType`); the error table and the
path helpers only distinguish Windows from every other value. -/
inductive OSType where
  | OsLinux
  | OsWindows
deriving DecidableEq

/-- `isSlash` from the source: a byte is a slash when it is `\` or `/`. -/
def isSlash (c : Char) : Bool := c == '\\' || c == '/'

/-- Surface error values: `LinuxError` and `WindowsError` are distinct Go
types wrapping an error number; we keep the two constructors separate so that
"is a Windows surface value" is expressible. -/
inductive OSError where
  | linux : Nat → OSError
  | windows : Nat → OSError
deriving DecidableEq

/-- True exactly on `LinuxError` values. -/
def OSError.isLinux : OSError → Bool
  | .linux _ => true
  | .windows _ => false

/-- True exactly on `WindowsError` values. -/
def OSError.isWindows : OSError → Bool
  | .linux _ => false
  | .windows _ => true

/-- Linux surface errors (`LinuxError` constants of the source). -/
def ErrBadFileDesc : OSError := .linux 0x9

def ErrCrossDevLink : OSError := .linux 0x12

def ErrDirNotEmpty : OSError := .linux 0x27

def ErrFileExists : OSError := .linux 0x11

def ErrInvalidArgument : OSError := .linux 0x16

def ErrIsADirectory : OSError := .linux 0x15

def ErrNoSuchFileOrDir : OSError := .linux 0x2

def ErrNotADirectory : OSError := .linux 0x14

def ErrOpNotPermitted : OSError := .linux 0x1

def ErrPermDenied : OSError := .linux 0xd

def ErrTooManySymlinks : OSError := .linux 0x28

/-- `CustomError = 2 << 30` from the source. -/
def CustomError : Nat := 2 <<< 30

/-- Windows surface errors (`WindowsError` constants of the source). -/
def ErrWinAccessDenied : OSError := .windows 5

def ErrWinAlreadyExists : OSError := .windows 183

def ErrWinDirNotEmpty : OSError := .windows 145

def ErrWinFileExists : OSError := .windows 80

def ErrWinFileNotFound : OSError := .windows 2

def ErrWinIsADirectory : OSError := .windows 21

def ErrWinNegativeSeek : OSError := .windows 0x83

def ErrWinNotSupported : OSError := .windows 0x20000082

def ErrWinPathNotFound : OSError := .windows 3

/-- `avfs.Errors`: the per-backend table of surface errors, one field per
abstract error kind. -/
structure Errors where
  badFileDesc : OSError
  dirNotEmpty : OSError
  fileExists : OSError
  invalidArgument : OSError
  isADirectory : OSError
  noSuchDir : OSError
  noSuchFile : OSError
  notADirectory : OSError
  opNotPermitted : OSError
  permDenied : OSError
  tooManySymlinks : OSError
deriving DecidableEq

/-- `Errors.SetOSType`: fills the error table for the personality chosen at
backend construction.  Functional rendering: returns the table that the Go
method stores in place. -/
def Errors.setOSType (ost : OSType) : Errors :=
  match ost with
  | .OsWindows =>
      { badFileDesc := ErrWinAccessDenied
        dirNotEmpty := ErrWinDirNotEmpty
        fileExists := ErrWinFileExists
        invalidArgument := ErrWinNegativeSeek
        isADirectory := ErrWinIsADirectory
        noSuchDir := ErrWinPathNotFound
        noSuchFile := ErrWinFileNotFound
        notADirectory := ErrWinPathNotFound
        opNotPermitted := ErrWinNotSupported
        permDenied := ErrWinAccessDenied
        tooManySymlinks := ErrTooManySymlinks }
  | _ =>
      { badFileDesc := ErrBadFileDesc
        dirNotEmpty := ErrDirNotEmpty
        fileExists := ErrFileExists
        invalidArgument := ErrInvalidArgument
        isADirectory := ErrIsADirectory
        noSuchDir := ErrNoSuchFileOrDir
        noSuchFile := ErrNoSuchFileOrDir
        notADirectory := ErrNotADirectory
        opNotPermitted := ErrOpNotPermitted
        permDenied := ErrPermDenied
        tooManySymlinks := ErrTooManySymlinks }

/-- Every field of an error table satisfies a predicate. -/
def Errors.allFields (e : Errors) (pred : OSError → Bool) : Bool :=
  pred e.badFileDesc && pred e.dirNotEmpty &&
  pred e.fileExists && pred e.invalidArgument &&
  pred e.isADirectory && pred e.noSuchDir &&
  pred e.noSuchFile && pred e.notADirectory &&
  pred e.opNotPermitted && pred e.permDenied &&
  pred e.tooManySymlinks

/-- Scanning loop shared by both index loops of `BaseFS.volumeNameLen`:
absolute index of the first slash in `s`, where `s` sits at absolute
position `i` of the full path. -/
def findSlashAux : Str → Nat → Option Nat
  | [], _ => none
  | c :: cs, i => if isSlash c then some i else findSlashAux cs (i + 1)

/-- Absolute index of the first slash of `p` at position `n` or later. -/
def findSlashFrom (p : Str) (n : Nat) : Option Nat := findSlashAux (p.drop n) n

/-- `BaseFS.volumeNameLen`, translated from the source: 0 when the OS type is
not Windows; 2 for a drive letter followed by `:`; for UNC paths the scan for
the separator after the server name (the outer Go loop, which stops at the
first slash found before index `l-1`) followed by the scan past the share
name (the inner Go loop).  The outer loop's bound `n < l-1` is rendered as a
bound check on the first slash found, which is equivalent because the loop
body always leaves the loop once a slash is seen. -/
def volumeNameLen (osType : OSType) (p : Str) : Nat :=
  if osType ≠ OSType.OsWindows then 0
  else if p.length < 2 then 0
  else
    let c := p.getD 0 ' '
    if p.getD 1 ' ' = ':' ∧ ('a' ≤ c ∧ c ≤ 'z' ∨ 'A' ≤ c ∧ c ≤ 'Z') then 2
    else
      let l := p.length
      if 5 ≤ l ∧ isSlash (p.getD 0 ' ') ∧ isSlash (p.getD 1 ' ') ∧
          ¬isSlash (p.getD 2 ' ') ∧ p.getD 2 ' ' ≠ '.' then
        match findSlashFrom p 3 with
        | none => 0
        | some k =>
          if k < l - 1 then
            let m := k + 1
            if isSlash (p.getD m ' ') then 0
            else if p.getD m ' ' = '.' then 0
            else
              match findSlashFrom p m with
              | none => l
              | some j => j
          else 0
      else 0

/-- Formalisation of the claim's description of the volume-name length (the
spec side of C7): 2 for a path whose first byte is an ASCII letter followed
by `:`; for every UNC path made of two leading slashes, a server name, a
separator and a share name — names being nonempty slash-free runs — the
index just past the share name; 0 for all other paths, and 0 whenever the OS
type is not Windows. -/
def volumeNameLenClaimed (osType : OSType) (p : Str) : Nat :=
  if osType ≠ OSType.OsWindows then 0
  else
    match p with
    | c :: d :: rest =>
      if d = ':' ∧ ('a' ≤ c ∧ c ≤ 'z' ∨ 'A' ≤ c ∧ c ≤ 'Z') then 2
      else if isSlash c ∧ isSlash d then
        let server := rest.takeWhile (fun x => !isSlash x)
        match rest.dropWhile (fun x => !isSlash x) with
        | _ :: r2 =>
          let share := r2.takeWhile (fun x => !isSlash x)
          if server ≠ [] ∧ share ≠ [] then 2 + server.length + 1 + share.length
          else 0
        | [] => 0
      else 0
    | _ => 0

/-- The claim of C7 amended to what the code does: the server name must not
begin with `.` (which would make the path a `\\.\` device path) and the
share name must not begin with `.` either; in those cases the function
returns 0. -/
def volumeNameLenAmended (osType : OSType) (p : Str) : Nat :=
  if osType ≠ OSType.OsWindows then 0
  else
    match p with
    | c :: d :: rest =>
      if d = ':' ∧ ('a' ≤ c ∧ c ≤ 'z' ∨ 'A' ≤ c ∧ c ≤ 'Z') then 2
      else if isSlash c ∧ isSlash d then
        let server := rest.takeWhile (fun x => !isSlash x)
        match rest.dropWhile (fun x => !isSlash x) with
        | _ :: r2 =>
          let share := r2.takeWhile (fun x => !isSlash x)
          if server ≠ [] ∧ share ≠ [] ∧ server.headD ' ' ≠ '.' ∧
              share.headD ' ' ≠ '.' then
            2 + server.length + 1 + share.length
          else 0
        | [] => 0
      else 0
    | _ => 0

/-- `fs.ModePerm`: the nine permission bits. -/
def ModePerm : Nat := 0o777

/-- `SetUMask` from `utils_other.go`: the stored file mode creation mask
becomes `mask & fs.ModePerm`.  The atomic store is rendered as returning the
new value of the register. -/
def setUMask (mask : Nat) : Nat := mask &&& ModePerm

/-- `UMask`: atomic load of the stored register value. -/
def uMask (stored : Nat) : Nat := stored

/-- Path-handling context (`avfs.Utils`): the OS personality and its path
separator, fixed at backend construction. -/
structure Utils where
  osType : OSType
  pathSeparator : Char
deriving DecidableEq

/-- The POSIX personality: separator `/`. -/
def posixUtils : Utils := { osType := .OsLinux, pathSeparator := '/' }

/-- The Windows personality: separator `\`. -/
def windowsUtils : Utils := { osType := .OsWindows, pathSeparator := '\\' }

/-- Chunks of a string between separators; empty chunks are kept, so the
chunk list always has one more element than the separator count. -/
def splitChunks (sep : Char) : Str → List Str
  | [] => [[]]
  | c :: cs =>
    if c = sep then [] :: splitChunks sep cs
    else
      match splitChunks sep cs with
      | [] => [[c]]
      | chunk :: rest => (c :: chunk) :: rest

/-- Resolve `..` segments lexically: a `..` cancels the previous segment,
is dropped at the root when the path is rooted, and is kept when the path
is relative and nothing remains to cancel.  `acc` holds the segments
emitted so far, in reverse. -/
def resolveDots (rooted : Bool) (acc : List Str) : List Str → List Str
  | [] => acc.reverse
  | seg :: rest =>
    if seg = ['.', '.'] then
      match acc with
      | a :: acc' =>
        if a = ['.', '.'] then resolveDots rooted (seg :: acc) rest
        else resolveDots rooted acc' rest
      | [] =>
        if rooted then resolveDots rooted [] rest
        else resolveDots rooted [seg] rest
    else resolveDots rooted (seg :: acc) rest

/-- Modelled from the spec: `Utils.Clean` is absent from the sources; the
spec fixes it as the five standard lexical rules — collapse repeated
separators, drop `.` segments, resolve `..` lexically without crossing the
root, keep a trailing separator only on the bare root, preserve the leading
volume name verbatim, and return `.` when nothing remains. -/
def Utils.clean (ut : Utils) (p : Str) : Str :=
  let sep := ut.pathSeparator
  let vl := volumeNameLen ut.osType p
  let vol := p.take vl
  let rest := p.drop vl
  match rest with
  | [] => if vol = [] then ['.'] else vol ++ ['.']
  | r0 :: _ =>
    let rooted := r0 = sep
    let segs := (splitChunks sep rest).filter fun s => decide (s ≠ [] ∧ s ≠ ['.'])
    let out := resolveDots rooted [] segs
    let body := List.intercalate [sep] out
    if body = [] then if rooted then vol ++ [sep] else vol ++ ['.']
    else if rooted then vol ++ sep :: body else vol ++ body

/-- Modelled from the spec: `Utils.Join` is absent from the sources; the
spec fixes it as concatenation with a single separator followed by clean,
with empty strings ignored (joining from the first nonempty element, later
empty elements only produce repeated separators that clean collapses). -/
def Utils.join (ut : Utils) (elems : List Str) : Str :=
  match elems.dropWhile (fun e => e.isEmpty) with
  | [] => []
  | es => ut.clean (List.intercalate [ut.pathSeparator] es)

/-- Modelled from the spec: `Utils.IsAbs` is absent from the sources; the
spec: a path is absolute iff it starts with the separator (POSIX), or with
a volume name (drive or UNC form) followed by a separator (Windows). -/
def Utils.isAbs (ut : Utils) (p : Str) : Bool :=
  match ut.osType with
  | .OsLinux => p.headD ' ' == ut.pathSeparator
  | .OsWindows =>
    let v := volumeNameLen .OsWindows p
    decide (0 < v) && isSlash (p.getD v ' ')

/-- `avfs.PathIterator`: the path buffer, the current part's bounds, the
volume-name length cached at creation, and the utils.  The Go `int` fields
are embedded as `Nat`; every reachable iterator state (fresh, or after a
successful `Next`) keeps them nonnegative, and the theorems that touch the
one subtraction (`ReplacePart`'s cursor rewind) assume `1 ≤ start`, which
holds whenever the iterator is positioned on a part. -/
structure PathIterator where
  path : Str
  start : Nat
  end_ : Nat
  volumeNameLen : Nat
  ut : Utils
deriving DecidableEq

/-- `NewPathIterator`: stores the path and its volume-name length, then
resets, placing the cursor's end on the volume name. -/
def Utils.newPathIterator (ut : Utils) (path : Str) : PathIterator :=
  let vl := AVFS.volumeNameLen ut.osType path
  { path := path, start := 0, end_ := vl, volumeNameLen := vl, ut := ut }

/-- `PathIterator.IsLast`: the current part is the last one. -/
def PathIterator.isLast (pi : PathIterator) : Bool := pi.end_ == pi.path.length

/-- `strings.IndexByte` on the embedding: index of the first occurrence. -/
def indexByte (s : Str) (c : Char) : Option Nat :=
  match s with
  | [] => none
  | x :: xs => if x = c then some 0 else (indexByte xs c).map (· + 1)

/-- `PathIterator.Next`, translated from the source: move `start` one past
the previous `end`, stop when the path is exhausted, otherwise extend `end`
to the next separator or to the end of the path. -/
def PathIterator.next (pi : PathIterator) : Bool × PathIterator :=
  let start := pi.end_ + 1
  if pi.path.length ≤ start then (false, { pi with start := start, end_ := start })
  else
    match indexByte (pi.path.drop start) pi.ut.pathSeparator with
    | none => (true, { pi with start := start, end_ := pi.path.length })
    | some pos => (true, { pi with start := start, end_ := start + pos })

/-- `PathIterator.Part`: the slice `pi.path[pi.start:pi.end]`. -/
def PathIterator.part (pi : PathIterator) : Str :=
  (pi.path.take pi.end_).drop pi.start

/-- `PathIterator.Reset`: the cursor's end returns to the volume name. -/
def PathIterator.reset (pi : PathIterator) : PathIterator :=
  { pi with end_ := pi.volumeNameLen }

/-- The path that `ReplacePart` writes into the iterator, factored out of
the source's two-branch computation: join of the new path with the right of
the current part when the new path is absolute, and join of the left of the
current part, the new path and the right of the current part otherwise. -/
def replacedPath (pi : PathIterator) (newPath : Str) : Str :=
  if pi.ut.isAbs newPath then pi.ut.join [newPath, pi.path.drop pi.end_]
  else pi.ut.join [pi.path.take pi.start, newPath, pi.path.drop pi.end_]

/-- `PathIterator.ReplacePart`, translated from the source: splice the new
path in place of the current part (see `replacedPath`), reset when the
prefix before the cursor changed or the cursor fell past the end of the new
path (returning true), otherwise rewind the cursor one character before the
current part's start (returning false). -/
def PathIterator.replacePart (pi : PathIterator) (newPath : Str) :
    Bool × PathIterator :=
  let oldPath := pi.path
  let path' := replacedPath pi newPath
  let pi' := { pi with path := path' }
  if path'.length ≤ pi.start ∨ path'.take pi.start ≠ oldPath.take pi.start then
    (true, pi'.reset)
  else
    (false, { pi' with end_ := pi.start - 1 })

/-- Run the iterator to exhaustion, collecting `(Part, IsLast)` after each
successful `Next`.  Fuel-indexed so that every definition stays structural;
`Next` advances `end_` by at least one, so `path.length + 1` steps always
suffice (see `partsL`). -/
def PathIterator.partsFuel : Nat → PathIterator → List (Str × Bool)
  | 0, _ => []
  | fuel + 1, pi =>
    match pi.next with
    | (false, _) => []
    | (true, pi') => (pi'.part, pi'.isLast) :: PathIterator.partsFuel fuel pi'

/-- All parts of the iterator, with their `IsLast` flags. -/
def PathIterator.partsL (pi : PathIterator) : List (Str × Bool) :=
  PathIterator.partsFuel (pi.path.length + 1) pi

/-- Segments joined by single separators (the body of a clean path). -/
def joinSegs (sep : Char) : List Str → Str
  | [] => []
  | [s] => s
  | s :: rest => s ++ sep :: joinSegs sep rest

/-- Segments paired with their is-last flags: `false` everywhere except on
the final segment. -/
def expectedPairs : List Str → List (Str × Bool)
  | [] => []
  | [s] => [(s, true)]
  | s :: rest => (s, false) :: expectedPairs rest

/-- A single-path error (`os.PathError`): operation, path, cause. -/
structure PathError where
  op : String
  path : Str
  err : OSError
deriving DecidableEq

/-- A two-path error (`os.LinkError`): operation, both paths, cause. -/
structure LinkError where
  op : String
  old : Str
  new : Str
  err : OSError
deriving DecidableEq

/-- The underlying backend operations that the base-path overlay calls, as
state transformers over an abstract backend state `σ`; `F` is the
underlying backend's file handle type. -/
structure BaseFSOps (σ F : Type) where
  abs : Str → σ → (Str × Option PathError) × σ
  chroot : Str → σ → Option PathError × σ
  openFile : Str → Nat → Nat → σ → (Option F × Option PathError) × σ

/-- `basepathfs.BasePathFS`: the underlying backend plus the stored
prefix. -/
structure BasePathFS (σ F : Type) where
  baseFS : BaseFSOps σ F
  basePath : Str

/-- Modelled from the spec: `BasePathFS.pathFsToBpFs` is absent from the
sources; every incoming path is lexically joined with the stored prefix,
preserving absolute interpretation. -/
def BasePathFS.pathFsToBpFs {σ F : Type} (vfs : BasePathFS σ F) (path : Str) :
    Str :=
  if path.headD ' ' = '/' then vfs.basePath ++ path else path

/-- Modelled from the spec: `BasePathFS.pathBpFsToFs` is absent from the
sources; every outgoing path has the stored prefix stripped. -/
def BasePathFS.pathBpFsToFs {σ F : Type} (vfs : BasePathFS σ F) (path : Str) :
    Str :=
  if vfs.basePath.isPrefixOf path then path.drop vfs.basePath.length else path

/-- Modelled from the spec: `BasePathFS.restoreError` is absent from the
sources; a returned error has its path field rewritten through
`pathBpFsToFs`. -/
def BasePathFS.restorePathError {σ F : Type} (vfs : BasePathFS σ F) :
    Option PathError → Option PathError
  | none => none
  | some e => some { e with path := vfs.pathBpFsToFs e.path }

/-- File handles returned by the overlay: on success the base file is
wrapped into a `BasePathFile`; on error the base result is returned
unwrapped, exactly as the source's `OpenFile` does. -/
inductive BPFile (F : Type) where
  | wrapped : F → BPFile F
  | base : F → BPFile F
deriving DecidableEq

/-- `os.O_RDONLY` (Linux value). -/
def O_RDONLY : Nat := 0

/-- `os.O_WRONLY` (Linux value). -/
def O_WRONLY : Nat := 1

/-- `os.O_RDWR` (Linux value). -/
def O_RDWR : Nat := 2

/-- `os.O_CREATE` (Linux value). -/
def O_CREATE : Nat := 64

/-- `os.O_TRUNC` (Linux value). -/
def O_TRUNC : Nat := 512

/-- `BasePathFS.OpenFile`, translated from the source: call the underlying
`OpenFile` on the prefixed path; on error return the base file and the
restored error, on success wrap the file. -/
def BasePathFS.openFile {σ F : Type} (vfs : BasePathFS σ F) (name : Str)
    (flag : Nat) (perm : Nat) (s : σ) :
    (Option (BPFile F) × Option PathError) × σ :=
  let r := vfs.baseFS.openFile (vfs.pathFsToBpFs name) flag perm s
  match r.1.2 with
  | some e => ((r.1.1.map BPFile.base, vfs.restorePathError (some e)), r.2)
  | none => ((r.1.1.map BPFile.wrapped, none), r.2)

/-- `BasePathFS.Open` (named `open'` here because `open` is reserved):
delegates to `OpenFile` with `O_RDONLY` and mode 0. -/
def BasePathFS.open' {σ F : Type} (vfs : BasePathFS σ F) (path : Str) (s : σ) :
    (Option (BPFile F) × Option PathError) × σ :=
  vfs.openFile path O_RDONLY 0 s

/-- `BasePathFS.Create`: delegates to `OpenFile` with
`O_RDWR|O_CREATE|O_TRUNC` and mode `0o666`. -/
def BasePathFS.create {σ F : Type} (vfs : BasePathFS σ F) (name : Str) (s : σ) :
    (Option (BPFile F) × Option PathError) × σ :=
  vfs.openFile name (O_RDWR ||| O_CREATE ||| O_TRUNC) 0o666 s

/-- `BasePathFS.EvalSymlinks`, translated from the source: unconditionally
returns an empty string and a `PathError{Op: "lstat"}` carrying
`ErrPermDenied`, without touching the underlying backend. -/
def BasePathFS.evalSymlinks {σ F : Type} (_vfs : BasePathFS σ F) (path : Str)
    (s : σ) : (Str × Option PathError) × σ :=
  (([], some { op := "lstat", path := path, err := ErrPermDenied }), s)

/-- `BasePathFS.Readlink`, translated from the source: unconditionally
returns an empty string and a `PathError{Op: "readlink"}` carrying
`ErrPermDenied`, without touching the underlying backend. -/
def BasePathFS.readlink {σ F : Type} (_vfs : BasePathFS σ F) (name : Str)
    (s : σ) : (Str × Option PathError) × σ :=
  (([], some { op := "readlink", path := name, err := ErrPermDenied }), s)

/-- `BasePathFS.Symlink`, translated from the source: unconditionally
returns a `LinkError{Op: "symlink"}` carrying `ErrPermDenied`, without
touching the underlying backend. -/
def BasePathFS.symlink {σ F : Type} (_vfs : BasePathFS σ F)
    (oldname newname : Str) (s : σ) : Option LinkError × σ :=
  (some { op := "symlink", old := oldname, new := newname,
          err := ErrPermDenied }, s)

/-- `BasePathFS.Chroot`, translated from the source: call the underlying
`Chroot` on the prefixed path; on error return the restored error leaving
the prefix unchanged; on success clear the stored prefix. -/
def BasePathFS.chroot {σ F : Type} (vfs : BasePathFS σ F) (path : Str)
    (s : σ) : (Option PathError × BasePathFS σ F) × σ :=
  let r := vfs.baseFS.chroot (vfs.pathFsToBpFs path) s
  match r.1 with
  | some e => ((vfs.restorePathError (some e), vfs), r.2)
  | none => ((none, { vfs with basePath := [] }), r.2)

/-- `BasePathFS.Abs`, translated from the source: call the underlying `Abs`
discarding its error, strip the prefix from the result, and return it with
a nil error. -/
def BasePathFS.abs {σ F : Type} (vfs : BasePathFS σ F) (path : Str) (s : σ) :
    (Str × Option PathError) × σ :=
  let r := vfs.baseFS.abs path s
  ((vfs.pathBpFsToFs r.1.1, none), r.2)

/-- `dummyidm.User`: immutable user record of the dummy identity manager. -/
structure User where
  name : String
  uid : Int
  gid : Int

/-- `User.IsRoot` from the source: `u.uid == 0 || u.gid == 0`. -/
def User.isRoot (u : User) : Bool := u.uid == 0 || u.gid == 0

/-- A trivial underlying backend over the unit state whose operations all
succeed; used to instantiate the overlay theorems. -/
def unitOps : BaseFSOps Unit Unit where
  abs := fun p s => ((p, none), s)
  chroot := fun _ s => (none, s)
  openFile := fun _ _ _ s => ((some (), none), s)

/-- An underlying backend over the unit state whose operations all fail;
used to instantiate the overlay theorems on the error path. -/
def failingOps : BaseFSOps Unit Unit where
  abs := fun p s =>
    ((p, some { op := "abs", path := p, err := ErrNoSuchFileOrDir }), s)
  chroot := fun p s =>
    (some { op := "chroot", path := p, err := ErrNoSuchFileOrDir }, s)
  openFile := fun p _ _ s =>
    ((none, some { op := "open", path := p, err := ErrNoSuchFileOrDir }), s)

/-- An overlay over the succeeding backend with prefix `/base`. -/
def fsOk : BasePathFS Unit Unit where
  baseFS := unitOps
  basePath := ['/', 'b', 'a', 's', 'e']

/-- An overlay over the failing backend with prefix `/base`. -/
def fsErr : BasePathFS Unit Unit where
  baseFS := failingOps
  basePath := ['/', 'b', 'a', 's', 'e']

end AVFS

namespace AVFS

/-- `List.getD` is the head of the dropped suffix. -/
theorem getD_eq_headD_drop {α : Type} : ∀ (l : List α) (n : Nat) (d : α),
    l.getD n d = (l.drop n).headD d
  | [], 0, _ => rfl
  | [], _ + 1, _ => rfl
  | _ :: _, 0, _ => rfl
  | _ :: l, n + 1, d => getD_eq_headD_drop l n d

/-- The slash scan in terms of `takeWhile` and `dropWhile`. -/
theorem findSlashAux_eq (s : Str) (i : Nat) :
    findSlashAux s i =
      if (s.dropWhile fun x => !isSlash x) = [] then none
      else some (i + (s.takeWhile fun x => !isSlash x).length) := by
  induction s generalizing i with
  | nil => simp [findSlashAux]
  | cons c cs ih =>
    by_cases h : isSlash c = true
    · simp [findSlashAux, h]
    · rw [show findSlashAux (c :: cs) i = findSlashAux cs (i + 1) from by
        simp [findSlashAux, h], ih]
      simp [h]
      split
      · rfl
      · simp only [Option.some.injEq, List.length_cons]; omega

/-- C7 (counterexample): the claim says the volume-name length of every UNC
path made of two slashes, a server name, a separator and a share name is the
index just past the share name; at `//a/.b` (server `a`, share `.b`) the
claimed description gives 6 while the code returns 0, because the code
rejects a share name starting with `.`. -/
theorem C7_counterexample :
    volumeNameLen OSType.OsWindows ['/', '/', 'a', '/', '.', 'b'] = 0 ∧
    volumeNameLenClaimed OSType.OsWindows ['/', '/', 'a', '/', '.', 'b'] = 6 ∧
    volumeNameLen OSType.OsWindows ['/', '/', 'a', '/', '.', 'b'] ≠
      volumeNameLenClaimed OSType.OsWindows ['/', '/', 'a', '/', '.', 'b'] := by
  decide

set_option maxHeartbeats 1000000 in
/-- C7 (amended): `volumeNameLen` returns 0 whenever the OS type is not
Windows; on Windows it returns 2 for every path whose first byte is an ASCII
letter followed by `:`, and for every UNC path of the form two leading
slashes, a server name whose first character is not `.`, a separator and a
share name whose first character is not `.`, the index just past the share
name; it returns 0 for all other paths.  Stated as the pointwise equality of
the translated function with the executable rendering of that description. -/
theorem C7_volumeNameLen_amended (ost : OSType) (p : Str) :
    volumeNameLen ost p = volumeNameLenAmended ost p := by
  cases ost with
  | OsLinux => rfl
  | OsWindows =>
    match p with
    | [] => rfl
    | [c] => rfl
    | c :: d :: rest =>
      rw [volumeNameLen, volumeNameLenAmended]
      simp only [ne_eq, not_true_eq_false, if_false, List.getD_cons_succ,
        List.getD_cons_zero, List.length_cons, ite_false]
      rw [if_neg (show ¬(rest.length + 1 + 1 < 2) by omega)]
      by_cases hdrive : d = ':' ∧ ('a' ≤ c ∧ c ≤ 'z' ∨ 'A' ≤ c ∧ c ≤ 'Z')
      · rw [if_pos hdrive, if_pos hdrive]
      · rw [if_neg hdrive, if_neg hdrive]
        by_cases hc : isSlash c = true
        · by_cases hd : isSlash d = true
          · cases rest with
            | nil =>
                rw [if_neg (by simp), if_pos ⟨hc, hd⟩]
                simp
            | cons e rest3 =>
              simp only [List.getD_cons_zero, List.length_cons]
              by_cases he : isSlash e = true
              · rw [if_neg (by simp [he]), if_pos ⟨hc, hd⟩]
                simp [List.takeWhile_cons, List.dropWhile_cons, he]
              · have heb : (fun x => !isSlash x) e = true := by simp [he]
                by_cases hedot : e = '.'
                · rw [if_neg (by simp [hedot]), if_pos ⟨hc, hd⟩]
                  rw [@List.takeWhile_cons_of_pos Char (fun x => !isSlash x) e rest3 heb,
                    @List.dropWhile_cons_of_pos Char (fun x => !isSlash x) e rest3 heb]
                  cases rest3.dropWhile (fun x => !isSlash x) with
                  | nil => rfl
                  | cons f r2 =>
                    simp only []
                    rw [if_neg]
                    rintro ⟨-, -, h3, -⟩
                    exact h3 (by simp [hedot])
                · -- main UNC case: the server name is `e :: takeWhile rest3`
                  conv_rhs => rw [if_pos ⟨hc, hd⟩]
                  rw [@List.takeWhile_cons_of_pos Char (fun x => !isSlash x) e rest3 heb,
                    @List.dropWhile_cons_of_pos Char (fun x => !isSlash x) e rest3 heb]
                  rw [show findSlashFrom (c :: d :: e :: rest3) 3
                      = findSlashAux rest3 3 from rfl]
                  rw [findSlashAux_eq]
                  cases hF : rest3.dropWhile (fun x => !isSlash x) with
                  | nil =>
                    rw [if_pos rfl]
                    split <;> simp
                  | cons f r2 =>
                    rw [if_neg (show ¬(f :: r2 = ([] : Str)) by simp)]
                    simp only []
                    have hsplit : rest3.takeWhile (fun x => !isSlash x) ++ f :: r2
                        = rest3 := by
                      rw [← hF]; exact List.takeWhile_append_dropWhile _ rest3
                    have hlen : rest3.length
                        = (rest3.takeWhile (fun x => !isSlash x)).length + (r2.length + 1) := by
                      conv_lhs => rw [← hsplit]
                      simp [List.length_append]
                    cases r2 with
                    | nil =>
                      simp only [List.length_nil] at hlen
                      have hnlt : ¬(3 + (rest3.takeWhile (fun x => !isSlash x)).length
                          < rest3.length + 1 + 1 + 1 - 1) := by omega
                      rw [if_neg hnlt, ite_self]
                      simp
                    | cons g r2' =>
                      simp only [List.length_cons] at hlen
                      have h5 : 5 ≤ rest3.length + 1 + 1 + 1 := by omega
                      rw [if_pos (show 5 ≤ rest3.length + 1 + 1 + 1 ∧ isSlash c = true
                          ∧ isSlash d = true ∧ ¬isSlash e = true ∧ ¬e = '.'
                          from ⟨h5, hc, hd, he, hedot⟩)]
                      have hlt : 3 + (rest3.takeWhile (fun x => !isSlash x)).length
                          < rest3.length + 1 + 1 + 1 - 1 := by omega
                      rw [if_pos hlt]
                      have hdropt : rest3.drop (rest3.takeWhile (fun x => !isSlash x)).length
                          = f :: g :: r2' := by
                        have h2 := List.drop_left
                          (rest3.takeWhile (fun x => !isSlash x)) (f :: g :: r2')
                        rw [hsplit] at h2
                        exact h2
                      have hdrop1 : (d :: e :: rest3).drop
                          (3 + (rest3.takeWhile (fun x => !isSlash x)).length) = g :: r2' := by
                        rw [show 3 + (rest3.takeWhile (fun x => !isSlash x)).length
                            = ((rest3.takeWhile (fun x => !isSlash x)).length + 1) + 1 + 1
                            from by omega]
                        rw [List.drop_succ_cons, List.drop_succ_cons,
                          ← List.drop_drop, hdropt]
                        rfl
                      rw [getD_eq_headD_drop, hdrop1, List.headD_cons]
                      have hdrop2 : (c :: d :: e :: rest3).drop
                          (3 + (rest3.takeWhile (fun x => !isSlash x)).length + 1) = g :: r2' := by
                        rw [List.drop_succ_cons]
                        exact hdrop1
                      rw [show findSlashFrom (c :: d :: e :: rest3)
                            (3 + (rest3.takeWhile (fun x => !isSlash x)).length + 1)
                          = findSlashAux ((c :: d :: e :: rest3).drop
                            (3 + (rest3.takeWhile (fun x => !isSlash x)).length + 1))
                            (3 + (rest3.takeWhile (fun x => !isSlash x)).length + 1)
                          from rfl]
                      rw [hdrop2, findSlashAux_eq]
                      by_cases hg : isSlash g = true
                      · rw [if_pos hg,
                          @List.takeWhile_cons_of_neg Char (fun x => !isSlash x) g r2'
                            (by simp [hg])]
                        simp
                      · have hgb : (fun x => !isSlash x) g = true := by simp [hg]
                        rw [if_neg hg,
                          @List.takeWhile_cons_of_pos Char (fun x => !isSlash x) g r2' hgb,
                          @List.dropWhile_cons_of_pos Char (fun x => !isSlash x) g r2' hgb]
                        by_cases hgdot : g = '.'
                        · rw [if_pos hgdot]
                          simp +decide [hgdot]
                        · rw [if_neg hgdot]
                          by_cases hr2 : r2'.dropWhile (fun x => !isSlash x) = []
                          · rw [if_pos hr2]
                            simp only []
                            have htake : r2'.takeWhile (fun x => !isSlash x) = r2' := by
                              have h2 := List.takeWhile_append_dropWhile
                                (fun x => !isSlash x) r2'
                              rw [hr2, List.append_nil] at h2
                              exact h2
                            simp only [htake, List.headD_cons, List.length_cons]
                            rw [if_pos ⟨by simp, by simp, hedot, hgdot⟩]
                            omega
                          · rw [if_neg hr2]
                            simp only [List.headD_cons, List.length_cons]
                            rw [if_pos ⟨by simp, by simp, hedot, hgdot⟩]
                            omega
          · rw [if_neg (by simp [hd]), if_neg (by simp [hd])]
        · rw [if_neg (by simp [hc]), if_neg (by simp [hc])]

end AVFS

namespace AVFS

/-- `indexByte` finds nothing in a string not containing the byte. -/
theorem indexByte_eq_none (c : Char) (s : Str) (h : c ∉ s) :
    indexByte s c = none := by
  induction s with
  | nil => rfl
  | cons x xs ih =>
    simp only [List.mem_cons, not_or] at h
    simp only [indexByte]
    rw [if_neg (fun hx => h.1 hx.symm), ih h.2]
    rfl

/-- `indexByte` finds the first occurrence right after a clean prefix. -/
theorem indexByte_append_sep (c : Char) (s t : Str) (h : c ∉ s) :
    indexByte (s ++ c :: t) c = some s.length := by
  induction s with
  | nil => simp [indexByte]
  | cons x xs ih =>
    simp only [List.mem_cons, not_or] at h
    simp only [List.cons_append, indexByte]
    rw [if_neg (fun hx => h.1 hx.symm),
      show xs.append (c :: t) = xs ++ c :: t from rfl, ih h.2]
    rfl

/-- Key iteration lemma: when the suffix of the path after the cursor is a
separator followed by nonempty separator-free segments joined by single
separators, running the iterator with sufficient fuel yields exactly those
segments, flagged `IsLast` only on the final one. -/
theorem partsFuel_spec : ∀ (segs : List Str) (fuel : Nat) (pi : PathIterator),
    pi.path.drop pi.end_ = pi.ut.pathSeparator :: joinSegs pi.ut.pathSeparator segs →
    segs ≠ [] →
    (∀ s ∈ segs, s ≠ [] ∧ pi.ut.pathSeparator ∉ s) →
    pi.path.length - pi.end_ ≤ fuel →
    PathIterator.partsFuel fuel pi = expectedPairs segs := by
  intro segs
  induction segs with
  | nil => intro _ _ _ hne _ _; exact absurd rfl hne
  | cons seg rest ih =>
    intro fuel pi hdrop hne hsegs hfuel
    obtain ⟨hsegne, hsegfree⟩ := hsegs seg (List.mem_cons_self seg rest)
    have hlt : pi.end_ < pi.path.length := by
      by_contra hle
      rw [List.drop_eq_nil_iff.mpr (by omega)] at hdrop
      exact List.noConfusion hdrop
    have hdlen := congrArg List.length hdrop
    simp only [List.length_drop, List.length_cons] at hdlen
    have hdrop1 : pi.path.drop (pi.end_ + 1)
        = joinSegs pi.ut.pathSeparator (seg :: rest) := by
      have h2 := congrArg (List.drop 1) hdrop
      rw [List.drop_drop] at h2
      simpa using h2
    have hsegpos : 1 ≤ seg.length := by
      cases hs : seg with
      | nil => exact absurd hs hsegne
      | cons a b => simp [hs]
    cases rest with
    | nil =>
      -- single segment left: the scan finds no further separator
      rw [show joinSegs pi.ut.pathSeparator [seg] = seg from rfl] at hdrop1 hdlen
      have hnotle : ¬(pi.path.length ≤ pi.end_ + 1) := by omega
      have hnext : pi.next
          = (true, { pi with start := pi.end_ + 1, end_ := pi.path.length }) := by
        rw [PathIterator.next]
        rw [if_neg hnotle]
        rw [show indexByte (pi.path.drop (pi.end_ + 1)) pi.ut.pathSeparator = none from by
          rw [hdrop1]; exact indexByte_eq_none _ _ hsegfree]
      obtain ⟨f, rfl⟩ : ∃ f, fuel = f + 1 := ⟨fuel - 1, by omega⟩
      rw [PathIterator.partsFuel, hnext]
      simp only []
      have hpart : ({ pi with start := pi.end_ + 1, end_ := pi.path.length }
          : PathIterator).part = seg := by
        rw [PathIterator.part]
        simp only [List.take_length]
        exact hdrop1
      have hlast : ({ pi with start := pi.end_ + 1, end_ := pi.path.length }
          : PathIterator).isLast = true := by
        simp [PathIterator.isLast]
      rw [hpart, hlast]
      have hrest : PathIterator.partsFuel f
          { pi with start := pi.end_ + 1, end_ := pi.path.length } = [] := by
        cases f with
        | zero => rfl
        | succ f' =>
          rw [PathIterator.partsFuel]
          rw [show ({ pi with start := pi.end_ + 1, end_ := pi.path.length }
              : PathIterator).next = (false,
              { pi with start := pi.path.length + 1, end_ := pi.path.length + 1 }) from by
            rw [PathIterator.next]
            rw [if_pos (Nat.le_succ _)]]
      rw [hrest]
      rfl
    | cons r0 rest' =>
      rw [show joinSegs pi.ut.pathSeparator (seg :: r0 :: rest')
          = seg ++ pi.ut.pathSeparator :: joinSegs pi.ut.pathSeparator (r0 :: rest')
          from rfl] at hdrop1 hdlen
      simp only [List.length_append, List.length_cons] at hdlen
      have hnotle : ¬(pi.path.length ≤ pi.end_ + 1) := by omega
      have hnext : pi.next = (true,
          { pi with start := pi.end_ + 1, end_ := pi.end_ + 1 + seg.length }) := by
        rw [PathIterator.next]
        rw [if_neg hnotle]
        rw [show indexByte (pi.path.drop (pi.end_ + 1)) pi.ut.pathSeparator
            = some seg.length from by
          rw [hdrop1]; exact indexByte_append_sep _ _ _ hsegfree]
      obtain ⟨f, rfl⟩ : ∃ f, fuel = f + 1 := ⟨fuel - 1, by omega⟩
      rw [PathIterator.partsFuel, hnext]
      simp only []
      have hdropm : pi.path.drop (pi.end_ + 1 + seg.length)
          = pi.ut.pathSeparator :: joinSegs pi.ut.pathSeparator (r0 :: rest') := by
        have h2 := congrArg (List.drop seg.length) hdrop1
        rw [List.drop_drop] at h2
        rw [List.drop_left' rfl] at h2
        exact h2
      have hpart : ({ pi with start := pi.end_ + 1, end_ := pi.end_ + 1 + seg.length }
          : PathIterator).part = seg := by
        rw [PathIterator.part]
        simp only []
        rw [List.drop_take, hdrop1]
        rw [show pi.end_ + 1 + seg.length - (pi.end_ + 1) = seg.length from by omega]
        exact List.take_left' rfl
      have hlast : ({ pi with start := pi.end_ + 1, end_ := pi.end_ + 1 + seg.length }
          : PathIterator).isLast = false := by
        simp only [PathIterator.isLast, beq_eq_false_iff_ne]
        have h1 : 1 ≤ (joinSegs pi.ut.pathSeparator (r0 :: rest')).length := by
          obtain ⟨h0, _⟩ := hsegs r0 (List.mem_cons_of_mem _ (List.mem_cons_self r0 rest'))
          cases hr : r0 with
          | nil => exact absurd hr h0
          | cons a b =>
            cases rest' with
            | nil => simp [joinSegs, hr]
            | cons u v => simp [joinSegs, hr]
        omega
      rw [hpart, hlast]
      rw [ih f { pi with start := pi.end_ + 1, end_ := pi.end_ + 1 + seg.length }
        hdropm (by simp) (fun s hs => hsegs s (List.mem_cons_of_mem _ hs)) (by
          simp only [List.length_cons]
          omega)]
      rfl

end AVFS

namespace AVFS

/-- C1 (counterexample): the claim states that with the Windows personality
every reported error, including TooManySymlinks, is a Windows surface value
of its kind; but the table built by `Errors.SetOSType` for Windows maps
TooManySymlinks to the Linux surface value `ELOOP` (`ErrTooManySymlinks`),
which is not a Windows value, so the table does not consist solely of
Windows values. -/
theorem C1_counterexample :
    (Errors.setOSType OSType.OsWindows).tooManySymlinks = ErrTooManySymlinks ∧
    (Errors.setOSType OSType.OsWindows).tooManySymlinks.isWindows = false ∧
    (Errors.setOSType OSType.OsWindows).allFields OSError.isWindows = false := by
  decide

/-- C1 (amended): with the POSIX personality every entry of the error table
built by `Errors.SetOSType` is a Linux surface value; with the Windows
personality every entry other than TooManySymlinks — each of the ten
remaining fields, listed one by one — is a Windows surface value, and
TooManySymlinks remains the Linux surface value `ELOOP`. -/
theorem C1_errors_amended :
    (Errors.setOSType OSType.OsLinux).allFields OSError.isLinux = true ∧
    ((Errors.setOSType OSType.OsWindows).badFileDesc.isWindows = true ∧
      (Errors.setOSType OSType.OsWindows).dirNotEmpty.isWindows = true ∧
      (Errors.setOSType OSType.OsWindows).fileExists.isWindows = true ∧
      (Errors.setOSType OSType.OsWindows).invalidArgument.isWindows = true ∧
      (Errors.setOSType OSType.OsWindows).isADirectory.isWindows = true ∧
      (Errors.setOSType OSType.OsWindows).noSuchDir.isWindows = true ∧
      (Errors.setOSType OSType.OsWindows).noSuchFile.isWindows = true ∧
      (Errors.setOSType OSType.OsWindows).notADirectory.isWindows = true ∧
      (Errors.setOSType OSType.OsWindows).opNotPermitted.isWindows = true ∧
      (Errors.setOSType OSType.OsWindows).permDenied.isWindows = true) ∧
    (Errors.setOSType OSType.OsWindows).tooManySymlinks = ErrTooManySymlinks := by
  decide

/-- C2: for every input path (or old-name/new-name pair) and every
underlying backend state, `BasePathFS.EvalSymlinks` and
`BasePathFS.Readlink` return an empty string and a `PathError` (op `lstat`
resp. `readlink`) carrying `ErrPermDenied`, `BasePathFS.Symlink` returns a
`LinkError` (op `symlink`) carrying `ErrPermDenied`, and all three leave
the underlying backend state unchanged. -/
theorem C2_symlink_ops_denied {σ F : Type} (vfs : BasePathFS σ F) (s : σ)
    (p old new : Str) :
    vfs.evalSymlinks p s
      = (([], some { op := "lstat", path := p, err := ErrPermDenied }), s) ∧
    vfs.readlink p s
      = (([], some { op := "readlink", path := p, err := ErrPermDenied }), s) ∧
    vfs.symlink old new s
      = (some { op := "symlink", old := old, new := new, err := ErrPermDenied }, s) :=
  ⟨rfl, rfl, rfl⟩

/-- C3: for every path and every underlying backend state, `Open(p)` returns
exactly the same result as `OpenFile(p, O_RDONLY, 0)`, and `Create(p)`
returns exactly the same result as
`OpenFile(p, O_RDWR|O_CREATE|O_TRUNC, 0o666)`. -/
theorem C3_open_create_equiv {σ F : Type} (vfs : BasePathFS σ F) (s : σ)
    (p q : Str) :
    vfs.open' p s = vfs.openFile p O_RDONLY 0 s ∧
    vfs.create q s = vfs.openFile q (O_RDWR ||| O_CREATE ||| O_TRUNC) 0o666 s :=
  ⟨rfl, rfl⟩

/-- A POSIX iterator on `/a/b` positioned on its final part `b` (after two
successful calls to `Next`). -/
def cexIter : PathIterator :=
  (((posixUtils.newPathIterator ['/', 'a', '/', 'b']).next).2.next).2

/-- C4 (counterexample): the claim states that an absolute `newPath` resets
the cursor to the volume root and that `ReplacePart` returns true exactly
when the iterator was reset; but on the iterator over `/a/b` positioned on
part `b`, `ReplacePart "/a/b")` — an absolute path — returns false, and the
next part emitted is `b` again rather than the first part from the volume
root. -/
theorem C4_counterexample :
    posixUtils.isAbs ['/', 'a', '/', 'b'] = true ∧
    cexIter.part = ['b'] ∧
    (cexIter.replacePart ['/', 'a', '/', 'b']).1 = false ∧
    ((cexIter.replacePart ['/', 'a', '/', 'b']).2.next.2).part = ['b'] := by
  decide

/-- C4 (amended): `ReplacePart(newPath)` rewrites the iterator's path to
`Join(newPath, right-of-current-part)` when `newPath` is absolute and to
`Join(left-of-current-part, newPath, right-of-current-part)` when it is
relative (`replacedPath`); the iterator is reset — the cursor's end returns
to the volume root — and `ReplacePart` returns true exactly when the
cursor's start is at or beyond the end of the rewritten path or the
rewritten path differs from the old path before the cursor's start;
otherwise `ReplacePart` returns false and repositions the cursor so the
next part emitted starts at the splice point. -/
theorem C4_replacePart_amended (pi : PathIterator) (newPath : Str)
    (hpos : 1 ≤ pi.start) :
    (pi.replacePart newPath).2.path = replacedPath pi newPath ∧
    ((pi.replacePart newPath).1 = true ↔
      ((replacedPath pi newPath).length ≤ pi.start ∨
        (replacedPath pi newPath).take pi.start ≠ pi.path.take pi.start)) ∧
    (pi.replacePart newPath).2.start = pi.start ∧
    ((pi.replacePart newPath).1 = true →
      (pi.replacePart newPath).2.end_ = pi.volumeNameLen) ∧
    ((pi.replacePart newPath).1 = false →
      (pi.replacePart newPath).2.end_ + 1 = pi.start) := by
  simp only [PathIterator.replacePart, PathIterator.reset]
  split
  · next h =>
      exact ⟨rfl, ⟨fun _ => h, fun _ => rfl⟩, rfl, fun _ => rfl,
        fun hf => Bool.noConfusion hf⟩
  · next h =>
      refine ⟨rfl, ⟨fun ht => Bool.noConfusion ht, fun hcond => absurd hcond h⟩,
        rfl, fun ht => Bool.noConfusion ht, fun _ => ?_⟩
      show pi.start - 1 + 1 = pi.start
      omega

/-- C4 (witness): the amended theorem applied to the concrete iterator over
`/a/b` positioned on part `b`, replacing with `/a/b`. -/
theorem C4_replacePart_amended_witness :
    1 ≤ cexIter.start ∧
    ((cexIter.replacePart ['/', 'a', '/', 'b']).2.path
        = replacedPath cexIter ['/', 'a', '/', 'b'] ∧
      ((cexIter.replacePart ['/', 'a', '/', 'b']).1 = true ↔
        ((replacedPath cexIter ['/', 'a', '/', 'b']).length ≤ cexIter.start ∨
          (replacedPath cexIter ['/', 'a', '/', 'b']).take cexIter.start ≠
            cexIter.path.take cexIter.start)) ∧
      (cexIter.replacePart ['/', 'a', '/', 'b']).2.start = cexIter.start ∧
      ((cexIter.replacePart ['/', 'a', '/', 'b']).1 = true →
        (cexIter.replacePart ['/', 'a', '/', 'b']).2.end_ = cexIter.volumeNameLen) ∧
      ((cexIter.replacePart ['/', 'a', '/', 'b']).1 = false →
        (cexIter.replacePart ['/', 'a', '/', 'b']).2.end_ + 1 = cexIter.start)) :=
  ⟨by decide, C4_replacePart_amended cexIter ['/', 'a', '/', 'b'] (by decide)⟩

/-- C5 (counterexample): the claim states that no empty segment is ever
yielded, even with repeated separators, and that `IsLast` is true exactly on
the final segment; but on `/a//b` the iterator yields the empty part between
the doubled separators, and on `/a/` the final emitted part `a` carries
`IsLast = false`. -/
theorem C5_counterexample :
    (posixUtils.newPathIterator ['/', 'a', '/', '/', 'b']).partsL
      = [(['a'], false), ([], false), (['b'], true)] ∧
    (posixUtils.newPathIterator ['/', 'a', '/']).partsL = [(['a'], false)] := by
  decide

/-- C5 (amended): for every path `p` whose part after the volume name is a
separator followed by nonempty separator-free segments joined by single
separators — that is, every cleaned absolute path with at least one
segment — iterating `NewPathIterator(p)` with successive `Next`/`Part`
calls yields exactly those segments in order, and `IsLast` is true exactly
on the final one. -/
theorem C5_parts_amended (ut : Utils) (p : Str) (segs : List Str)
    (hvol : p.drop (volumeNameLen ut.osType p)
      = ut.pathSeparator :: joinSegs ut.pathSeparator segs)
    (hne : segs ≠ [])
    (hsegs : ∀ s ∈ segs, s ≠ [] ∧ ut.pathSeparator ∉ s) :
    (ut.newPathIterator p).partsL = expectedPairs segs := by
  unfold PathIterator.partsL
  exact partsFuel_spec segs _ (ut.newPathIterator p) hvol hne hsegs
    (by simp [Utils.newPathIterator]; omega)

/-- C5 (witness): the amended theorem applied to the POSIX path `/a/b` with
segments `a` and `b`. -/
theorem C5_parts_amended_witness :
    ((['/', 'a', '/', 'b'] : Str).drop
        (volumeNameLen posixUtils.osType ['/', 'a', '/', 'b'])
      = posixUtils.pathSeparator :: joinSegs posixUtils.pathSeparator [['a'], ['b']]) ∧
    ([['a'], ['b']] ≠ ([] : List Str)) ∧
    (∀ s ∈ [(['a'] : Str), ['b']], s ≠ [] ∧ posixUtils.pathSeparator ∉ s) ∧
    (posixUtils.newPathIterator ['/', 'a', '/', 'b']).partsL
      = expectedPairs [['a'], ['b']] :=
  ⟨by decide, by decide, by decide,
    C5_parts_amended posixUtils ['/', 'a', '/', 'b'] [['a'], ['b']]
      (by decide) (by decide) (by decide)⟩

/-- C6: for every mode value `m`, `SetUMask(m)` followed by `UMask()`
returns `m AND 0o777` — only the nine permission bits are stored — and for
every nine-bit mask the set/get pair round-trips to the identical value. -/
theorem C6_umask_roundtrip :
    (∀ m : Nat, uMask (setUMask m) = m &&& 0o777) ∧
    (∀ m : Nat, m < 0o1000 → uMask (setUMask m) = m) := by
  refine ⟨fun m => rfl, fun m hm => ?_⟩
  show m &&& 0o777 = m
  have h2 := @Nat.and_pow_two_sub_one_of_lt_two_pow 9 m (by omega)
  simpa using h2

/-- C6 (witness): the round-trip at the nine-bit mask `0o755`. -/
theorem C6_umask_roundtrip_witness :
    0o755 < 0o1000 ∧ uMask (setUMask 0o755) = 0o755 :=
  ⟨by decide, C6_umask_roundtrip.2 0o755 (by decide)⟩

/-- C8: when the underlying backend's `Chroot` succeeds, `BasePathFS.Chroot`
clears the stored prefix (the `basePath` field becomes empty); when the
underlying `Chroot` fails, the stored prefix is left unchanged and the error
is returned with its path field rewritten through the prefix-stripping
map. -/
theorem C8_chroot_basePath {σ F : Type} (vfs : BasePathFS σ F) (p : Str) (s : σ) :
    ((vfs.baseFS.chroot (vfs.pathFsToBpFs p) s).1 = none →
      (vfs.chroot p s).1.1 = none ∧ (vfs.chroot p s).1.2.basePath = []) ∧
    (∀ e, (vfs.baseFS.chroot (vfs.pathFsToBpFs p) s).1 = some e →
      (vfs.chroot p s).1.2.basePath = vfs.basePath ∧
      (vfs.chroot p s).1.1 = some { e with path := vfs.pathBpFsToFs e.path }) := by
  constructor
  · intro h
    simp [BasePathFS.chroot, h]
  · intro e h
    simp [BasePathFS.chroot, h, BasePathFS.restorePathError]

/-- C8 (witness): the theorem applied to a succeeding backend — the prefix
is cleared — and to a failing backend — the prefix `/base` is kept and the
error path `/base/x` comes back rewritten to `/x`. -/
theorem C8_chroot_basePath_witness :
    ((fsOk.chroot ['/', 'x'] ()).1.1 = none ∧
      (fsOk.chroot ['/', 'x'] ()).1.2.basePath = []) ∧
    ((fsErr.chroot ['/', 'x'] ()).1.2.basePath = ['/', 'b', 'a', 's', 'e'] ∧
      (fsErr.chroot ['/', 'x'] ()).1.1
        = some { op := "chroot", path := ['/', 'x'], err := ErrNoSuchFileOrDir }) :=
  ⟨(C8_chroot_basePath fsOk ['/', 'x'] ()).1 rfl,
    (C8_chroot_basePath fsErr ['/', 'x'] ()).2
      { op := "chroot", path := ['/', 'b', 'a', 's', 'e', '/', 'x'],
        err := ErrNoSuchFileOrDir } rfl⟩

/-- C9: a user record of the dummy identity manager reports `IsRoot()` true
if and only if its uid equals 0 or its gid equals 0; in particular a user
with nonzero uid but primary gid 0 is treated as having root privileges. -/
theorem C9_isRoot_iff :
    (∀ u : User, u.isRoot = true ↔ (u.uid = 0 ∨ u.gid = 0)) ∧
    User.isRoot { name := "g", uid := 1000, gid := 0 } = true := by
  constructor
  · intro u
    simp [User.isRoot]
  · decide

/-- C10: for every input path and every underlying backend state,
`BasePathFS.Abs` returns a nil error — any error from the underlying `Abs`
is discarded — and the prefix-stripped underlying result string is returned
as a success. -/
theorem C10_abs_nil_error {σ F : Type} (vfs : BasePathFS σ F) (p : Str) (s : σ) :
    (vfs.abs p s).1.2 = none ∧
    (vfs.abs p s).1.1 = vfs.pathBpFsToFs (vfs.baseFS.abs p s).1.1 ∧
    (vfs.abs p s).2 = (vfs.baseFS.abs p s).2 :=
  ⟨rfl, rfl, rfl⟩

end AVFS
